import Mathlib

/-!
Verification of the Travel Spending expense tracker.

This file gives a shallow embedding of the transaction-management core of
the application and proves or refutes the frozen claims about it.  The
local-storage variant in `part_000` is embedded in full; the cloud variant
in `App.tsx` shares the converter, the aggregators and the import filter
with it, but its submit path differs in the edit branch (the update payload
carries a fresh server timestamp), so that path is embedded separately in
the synced-variant section below.

Modelling conventions:
- JavaScript numbers are modelled as exact rationals; the value NaN, which
  arises only from `parseFloat` on an unparseable string, is modelled by
  `Option ℚ` with `none` standing for NaN.
- Strings (dates, names, currency codes, CSV cells) are Lean `String`s.
  JavaScript truthiness of a string is emptiness testing, and truthiness of
  a number treats 0 and NaN as falsy, which is spelled out at each use site.
- `parseFloat` is modelled as a longest-numeric-prefix decimal parser over
  the characters of the string, returning `none` for NaN.
- Serialization of a number by `String(x)` (used by the CSV writer) is
  modelled by `numToString`, which prints the value as a sign, an integer
  part and a fixed 30-digit fractional expansion.  Every double-precision
  value that the application can hold within this range has a finite
  decimal expansion, and the output is `parseFloat`-equivalent to the
  JavaScript rendering, which is all the CSV round trip depends on.
- Fresh identifiers (`Date.now().toString()`, `Math.random()`) and clock
  reads (`new Date().toISOString()`) are nondeterministic in the source and
  are passed in as explicit parameters.
-/

/-! ### Decimal digits, printing and parsing -/

/-- Character for a decimal digit, `digitChar 5 = '5'`. -/
def digitChar (d : ℕ) : Char := Char.ofNat (48 + d)

/-- Decimal value of a digit character, `none` for a non-digit. -/
def charDigit (c : Char) : Option ℕ :=
  if 48 ≤ c.toNat ∧ c.toNat ≤ 57 then some (c.toNat - 48) else none

/-- Little-endian decimal digits of a natural number, with explicit fuel so
that the definition is structural and kernel-computable. -/
def natDigitsAux : ℕ → ℕ → List ℕ
  | 0, _ => []
  | _, 0 => []
  | fuel + 1, n + 1 => ((n + 1) % 10) :: natDigitsAux fuel ((n + 1) / 10)

/-- Little-endian decimal digits of a natural number (`[]` for 0). -/
def natDigits (n : ℕ) : List ℕ := natDigitsAux n n

/-- Decimal characters of a natural number, most significant first;
0 prints as the single character 0. -/
def natChars (n : ℕ) : List Char :=
  if n = 0 then ['0'] else ((natDigits n).map digitChar).reverse

/-- Little-endian digits of `f` padded with zeros to length `k`
(for `f < 10 ^ k`). -/
def padDigits (f k : ℕ) : List ℕ :=
  natDigits f ++ List.replicate (k - (natDigits f).length) 0

/-- Characters of the decimal rendering of the rational `m / 10 ^ k`:
optional minus sign, integer part, and for `k > 0` a point followed by
exactly `k` fraction digits. -/
def decChars (m : ℤ) (k : ℕ) : List Char :=
  (if m < 0 then ['-'] else []) ++ natChars (m.natAbs / 10 ^ k) ++
    (if k = 0 then [] else '.' :: ((padDigits (m.natAbs % 10 ^ k) k).map digitChar).reverse)

/-- String rendering of `m / 10 ^ k` with exactly `k` fraction digits. -/
def decString (m : ℤ) (k : ℕ) : String := String.mk (decChars m k)

/-- Model of the JavaScript `String(x)` serialization of a finite number, as
produced for the Price cell by the CSV writer: decimal expansion with a
fixed 30-digit fractional part.  For values whose exact decimal expansion
needs at most 30 fraction digits (which covers every value the application
can write) this is `parseFloat`-equivalent to the JavaScript output. -/
def numToString (q : ℚ) : String := decString (q * 10 ^ 30).num 30

/-- Serialization of a possibly-NaN number; `String(NaN)` is `"NaN"`. -/
def jsNumToString (x : Option ℚ) : String :=
  match x with
  | none => "NaN"
  | some q => numToString q

/-- Model of `x.toFixed(2)` from the CSV writer: the decimal string of the
integer nearest to `100 * x`, ties toward positive infinity, with two
fraction digits.  `NaN.toFixed(2)` is `"NaN"`. -/
def jsToFixedTwo (x : Option ℚ) : String :=
  match x with
  | none => "NaN"
  | some q => decString (round (q * 100)) 2

/-- Scan a maximal run of digit characters, returning the accumulated value,
the number of digits consumed, and the rest of the input. -/
def takeDigitsAux : ℕ → ℕ → List Char → ℕ × ℕ × List Char
  | acc, cnt, [] => (acc, cnt, [])
  | acc, cnt, c :: cs =>
    match charDigit c with
    | some d => takeDigitsAux (acc * 10 + d) (cnt + 1) cs
    | none => (acc, cnt, c :: cs)

/-- Consume an optional leading sign, returning the sign factor. -/
def parseSign : List Char → ℚ × List Char
  | '-' :: r => (-1, r)
  | '+' :: r => (1, r)
  | l => (1, l)

/-- Numeric part after the sign: a digit run, optionally a point and a
second digit run; everything after this longest numeric first part is
ignored; NaN (modelled as `none`) when no digit was read at all. -/
def parseBody (sgn : ℚ) (l : List Char) : Option ℚ :=
  let ipart := takeDigitsAux 0 0 l
  match ipart.2.2 with
  | '.' :: r2 =>
    let fpart := takeDigitsAux 0 0 r2
    if ipart.2.1 = 0 ∧ fpart.2.1 = 0 then none
    else some (sgn * ((ipart.1 : ℚ) + (fpart.1 : ℚ) / 10 ^ fpart.2.1))
  | _ => if ipart.2.1 = 0 then none else some (sgn * (ipart.1 : ℚ))

/-- Model of JavaScript `parseFloat` on a character list: skip spaces, read
an optional sign, then the numeric body. -/
def parseFloatAux (l : List Char) : Option ℚ :=
  let l1 := l.dropWhile (fun c => c = ' ')
  let s := parseSign l1
  parseBody s.1 s.2

/-- Model of JavaScript `parseFloat`; `none` stands for NaN. -/
def parseFloat (s : String) : Option ℚ := parseFloatAux s.toList

/-! ### Data model -/

/-- Fields of the add/edit form (`FormData` in the source); all fields are
strings, exactly as the controlled inputs hold them. -/
structure FormData where
  date : String
  name : String
  price : String
  currency : String
  category : String
  paymentMethod : String
deriving DecidableEq

/-- A transaction record (`Transaction` in the source).  The numeric fields
`price` and `priceInMain` are possibly-NaN numbers. -/
structure Transaction where
  id : String
  date : String
  name : String
  price : Option ℚ
  currency : String
  priceInMain : Option ℚ
  category : String
  paymentMethod : String
  createdAt : String
deriving DecidableEq

/-- The part of the component state that the form controller reads and
writes: the store, the form visibility flag, the edit target and the form
fields. -/
structure AppState where
  transactions : List Transaction
  showAddForm : Bool
  editingTransaction : Option Transaction
  formData : FormData
deriving DecidableEq

/-- One parsed CSV row as PapaParse delivers it with `header: true`: one
string per column, where a missing column and an empty cell are both
modelled by the empty string (both are falsy and behave identically
inside the import code). -/
structure CsvRow where
  date : String
  name : String
  price : String
  currency : String
  priceInMain : String
  mainCurrency : String
  category : String
  paymentMethod : String
deriving DecidableEq

/-! ### Currency conversion -/

/-- Plain lookup of a currency in the rate table (`exchangeRates[c]`). -/
def lookupRate (rates : List (String × ℚ)) (c : String) : Option ℚ :=
  (rates.find? (fun p => p.1 == c)).map (fun p => p.2)

/-- The defaulted rate `exchangeRates[c] || 1` from the source: a missing
entry is `undefined` and a stored 0 is falsy, so both fall back to 1. -/
def rateOr1 (rates : List (String × ℚ)) (c : String) : ℚ :=
  match lookupRate rates c with
  | some r => if r = 0 then 1 else r
  | none => 1

/-- Model of `convertToMainCurrency` from the source:
`(amount / rate) * mainRate` with both rates defaulted by `|| 1`. -/
def convertToMainCurrency (rates : List (String × ℚ)) (main : String)
    (amount : ℚ) (currency : String) : ℚ :=
  (amount / rateOr1 rates currency) * rateOr1 rates main

/-! ### Form controller -/

/-- Model of `resetForm` from the source: blank the form fields (currency prefilled
with the main currency, date with today), hide the form, clear the edit
target. -/
def resetForm (main today : String) (st : AppState) : AppState :=
  { st with
    showAddForm := false
    editingTransaction := none
    formData :=
      { date := today, name := "", price := "", currency := main
        category := "", paymentMethod := "" } }

/-- The record built by `handleAddTransaction` from the current form fields:
`price` is the parsed price, `priceInMain` its conversion into the main
currency, `id` and `createdAt` are kept from the edit target when one is set
(and truthy), otherwise freshly generated. -/
def mkFormTransaction (rates : List (String × ℚ)) (main newId now : String)
    (st : AppState) : Transaction :=
  let p := parseFloat st.formData.price
  { id :=
      match st.editingTransaction with
      | some e => if e.id = "" then newId else e.id
      | none => newId
    date := st.formData.date
    name := st.formData.name
    price := p
    currency := st.formData.currency
    priceInMain := p.map (fun a => convertToMainCurrency rates main a st.formData.currency)
    category := st.formData.category
    paymentMethod := st.formData.paymentMethod
    createdAt :=
      match st.editingTransaction with
      | some e => if e.createdAt = "" then now else e.createdAt
      | none => now }

/-- Model of `handleAddTransaction` from the source: bail out (leaving every piece of
state untouched) when name or price is an empty string; otherwise build the
record from the form and either replace the records whose id matches the
edit target or append, then reset the form. -/
def handleAddTransaction (rates : List (String × ℚ)) (main newId now today : String)
    (st : AppState) : AppState :=
  if st.formData.name = "" ∨ st.formData.price = "" then st
  else
    let newT := mkFormTransaction rates main newId now st
    let ts :=
      match st.editingTransaction with
      | some e => st.transactions.map (fun t => if t.id = e.id then newT else t)
      | none => st.transactions ++ [newT]
    resetForm main today { st with transactions := ts }

/-- Model of `handleDelete` from the source (the branch where the user confirms the
dialog): keep exactly the records whose id differs. -/
def handleDelete (id : String) (ts : List Transaction) : List Transaction :=
  ts.filter (fun t => t.id != id)

/-! ### Aggregator -/

/-- JavaScript addition on possibly-NaN numbers: NaN propagates. -/
def jsAdd (a b : Option ℚ) : Option ℚ :=
  match a, b with
  | some x, some y => some (x + y)
  | _, _ => none

/-- Model of `totalSpent` from the source: `reduce((sum, t) => sum + t.priceInMain, 0)`. -/
def totalSpent (ts : List Transaction) : Option ℚ :=
  ts.foldl (fun s t => jsAdd s t.priceInMain) (some 0)

/-- Model of `avgTransaction` from the source:
`length > 0 ? totalSpent / length : 0`. -/
def avgTransaction (ts : List Transaction) : Option ℚ :=
  if 0 < ts.length then (totalSpent ts).map (fun x => x / (ts.length : ℚ))
  else some 0

/-- One step of the `spendingByCurrency` reduce: `find` the first entry for
the currency of the record and add the raw price into it, or push a new
entry at the end. -/
def addCurrency : List (String × Option ℚ) → Transaction → List (String × Option ℚ)
  | [], t => [(t.currency, t.price)]
  | e :: rest, t =>
    if e.1 = t.currency then (e.1, jsAdd e.2 t.price) :: rest
    else e :: addCurrency rest t

/-- Model of `spendingByCurrency` from the source: fold the transactions through
`addCurrency` starting from the empty accumulator. -/
def spendingByCurrency (ts : List Transaction) : List (String × Option ℚ) :=
  ts.foldl addCurrency []

/-! ### CSV export and import -/

/-- One exported CSV row (`exportToCSV` in the source): string cells are
copied, `Price` is the serialized number, `Price in Main` is the value
formatted by `toFixed(2)`, and the current main currency is recorded. -/
def exportRow (main : String) (t : Transaction) : CsvRow :=
  { date := t.date
    name := t.name
    price := jsNumToString t.price
    currency := t.currency
    priceInMain := jsToFixedTwo t.priceInMain
    mainCurrency := main
    category := t.category
    paymentMethod := t.paymentMethod }

/-- Model of `exportToCSV` from the source, modelled down to the list of rows handed
to the CSV writer. -/
def exportToCSV (main : String) (ts : List Transaction) : List CsvRow :=
  ts.map (exportRow main)

/-- The import row filter `row.Date && row.Name && row.Price`: all three
cells must be truthy, that is, non-empty. -/
def acceptRow (r : CsvRow) : Bool :=
  r.date != "" && r.name != "" && r.price != ""

/-- JavaScript `a || b` on possibly-NaN numbers: NaN and 0 are falsy. -/
def jsOr (a b : Option ℚ) : Option ℚ :=
  match a with
  | some q => if q = 0 then b else some q
  | none => b

/-- The record built from one accepted CSV row (`importFromCSV` in the
source): `price` is the parsed Price cell, `currency` falls back to the main
currency, `priceInMain` is `parseFloat(row[Price in Main]) || parseFloat(row.Price)`,
and a fresh id and timestamp are attached.  Note the import never calls the
currency converter. -/
def importTx (main id now : String) (r : CsvRow) : Transaction :=
  { id := id
    date := r.date
    name := r.name
    price := parseFloat r.price
    currency := if r.currency = "" then main else r.currency
    priceInMain := jsOr (parseFloat r.priceInMain) (parseFloat r.price)
    category := r.category
    paymentMethod := r.paymentMethod
    createdAt := now }

/-- Filter-then-map of the import, fused into one recursion; the counter
feeds the fresh-id generator once per accepted row. -/
def importRows (main : String) (idGen : ℕ → String) (now : String) :
    ℕ → List CsvRow → List Transaction
  | _, [] => []
  | i, r :: rest =>
    if acceptRow r then importTx main (idGen i) now r :: importRows main idGen now (i + 1) rest
    else importRows main idGen now i rest

/-- Model of `importFromCSV` from the source: append the records built from the
accepted rows to the current store. -/
def importFromCSV (main : String) (idGen : ℕ → String) (now : String)
    (rows : List CsvRow) (ts : List Transaction) : List Transaction :=
  ts ++ importRows main idGen now 0 rows

/-! ### Correctness of the decimal printer against the parser -/

/-- Digit characters parse back to their value. -/
theorem charDigit_digitChar : ∀ d, d < 10 → charDigit (digitChar d) = some d := by decide

/-- Digit characters are not space, sign or point characters. -/
theorem digitChar_notSpecial :
    ∀ d, d < 10 → digitChar d ≠ ' ' ∧ digitChar d ≠ '-' ∧ digitChar d ≠ '+' ∧
      charDigit (digitChar d) ≠ none := by decide

theorem natDigitsAux_ofDigits :
    ∀ fuel n, n ≤ fuel → Nat.ofDigits 10 (natDigitsAux fuel n) = n := by
  intro fuel
  induction fuel with
  | zero =>
    intro n hn
    interval_cases n
    simp [natDigitsAux]
  | succ fuel ih =>
    intro n hn
    match n with
    | 0 => simp [natDigitsAux]
    | m + 1 =>
      have hdiv : (m + 1) / 10 ≤ fuel := by
        have h1 : (m + 1) / 10 < m + 1 := Nat.div_lt_self (Nat.succ_pos m) (by norm_num)
        omega
      rw [natDigitsAux, Nat.ofDigits_cons, ih _ hdiv]
      exact Nat.mod_add_div (m + 1) 10

theorem natDigits_ofDigits (n : ℕ) : Nat.ofDigits 10 (natDigits n) = n :=
  natDigitsAux_ofDigits n n le_rfl

theorem natDigitsAux_lt :
    ∀ fuel n d, d ∈ natDigitsAux fuel n → d < 10 := by
  intro fuel
  induction fuel with
  | zero => intro n d hd; simp [natDigitsAux] at hd
  | succ fuel ih =>
    intro n d hd
    match n with
    | 0 => simp [natDigitsAux] at hd
    | m + 1 =>
      rw [natDigitsAux] at hd
      rcases List.mem_cons.mp hd with h | h
      · subst h; exact Nat.mod_lt _ (by norm_num)
      · exact ih _ _ h

theorem natDigits_lt (n : ℕ) : ∀ d ∈ natDigits n, d < 10 :=
  fun d hd => natDigitsAux_lt n n d hd

theorem natDigitsAux_len :
    ∀ fuel n k, n ≤ fuel → n < 10 ^ k → (natDigitsAux fuel n).length ≤ k := by
  intro fuel
  induction fuel with
  | zero =>
    intro n k hn _
    interval_cases n
    simp [natDigitsAux]
  | succ fuel ih =>
    intro n k hn hk
    match n with
    | 0 => simp [natDigitsAux]
    | m + 1 =>
      match k with
      | 0 => simp at hk
      | j + 1 =>
        have hdivle : (m + 1) / 10 ≤ fuel := by
          have h1 : (m + 1) / 10 < m + 1 := Nat.div_lt_self (Nat.succ_pos m) (by norm_num)
          omega
        have hdivlt : (m + 1) / 10 < 10 ^ j := by
          rw [Nat.div_lt_iff_lt_mul (by norm_num)]
          calc m + 1 < 10 ^ (j + 1) := hk
          _ = 10 ^ j * 10 := by ring
        rw [natDigitsAux]
        simpa using ih _ _ hdivle hdivlt

theorem natDigits_len (n k : ℕ) (h : n < 10 ^ k) : (natDigits n).length ≤ k :=
  natDigitsAux_len n n k le_rfl h

theorem ofDigits_replicate_zero (b : ℕ) : ∀ j, Nat.ofDigits b (List.replicate j 0) = 0 := by
  intro j
  induction j with
  | zero => simp [Nat.ofDigits_nil]
  | succ j ih => simp [List.replicate_succ, Nat.ofDigits_cons, ih]

theorem padDigits_ofDigits (f k : ℕ) : Nat.ofDigits 10 (padDigits f k) = f := by
  rw [padDigits, Nat.ofDigits_append, natDigits_ofDigits, ofDigits_replicate_zero]
  ring

theorem padDigits_lt (f k : ℕ) : ∀ d ∈ padDigits f k, d < 10 := by
  intro d hd
  rcases List.mem_append.mp hd with h | h
  · exact natDigits_lt f d h
  · rw [List.eq_of_mem_replicate h]; norm_num

theorem padDigits_length (f k : ℕ) (h : f < 10 ^ k) : (padDigits f k).length = k := by
  have := natDigits_len f k h
  simp [padDigits]
  omega

/-- The head of a character list is not a digit. -/
def headNotDigit : List Char → Prop
  | [] => True
  | c :: _ => charDigit c = none

/-- Scanning a digit run: the accumulated value is the base-10 value of the
digits appended after the incoming accumulator, and scanning stops exactly
at the first non-digit. -/
theorem takeDigitsAux_eq (ds : List ℕ) (hds : ∀ d ∈ ds, d < 10)
    (rest : List Char) (hrest : headNotDigit rest) :
    ∀ acc cnt, takeDigitsAux acc cnt (ds.map digitChar ++ rest) =
      (acc * 10 ^ ds.length + Nat.ofDigits 10 ds.reverse, cnt + ds.length, rest) := by
  induction ds with
  | nil =>
    intro acc cnt
    match rest, hrest with
    | [], _ => simp [takeDigitsAux, Nat.ofDigits_nil]
    | c :: cs, h =>
      have h' : charDigit c = none := h
      simp [takeDigitsAux, h', Nat.ofDigits_nil]
  | cons d ds ih =>
    intro acc cnt
    have hd : d < 10 := hds d (List.mem_cons_self d ds)
    have hds' : ∀ x ∈ ds, x < 10 := fun x hx => hds x (List.mem_cons_of_mem d hx)
    have step : takeDigitsAux acc cnt ((d :: ds).map digitChar ++ rest) =
        takeDigitsAux (acc * 10 + d) (cnt + 1) (ds.map digitChar ++ rest) := by
      simp [takeDigitsAux, charDigit_digitChar d hd]
    rw [step, ih hds']
    have hval : Nat.ofDigits 10 ((d :: ds).reverse) =
        Nat.ofDigits 10 ds.reverse + 10 ^ ds.length * d := by
      rw [List.reverse_cons, Nat.ofDigits_append, Nat.ofDigits_singleton]
      simp
    rw [hval]
    refine Prod.ext ?_ (Prod.ext ?_ rfl) <;> simp <;> ring

/-- The characters of a natural number are a nonempty digit run whose value
is that number. -/
theorem natChars_spec (n : ℕ) :
    ∃ ds, natChars n = ds.map digitChar ∧ ds ≠ [] ∧ (∀ d ∈ ds, d < 10) ∧
      Nat.ofDigits 10 ds.reverse = n := by
  by_cases hn : n = 0
  · subst hn
    exact ⟨[0], by simp [natChars, digitChar], by simp, by norm_num, by simp⟩
  · refine ⟨(natDigits n).reverse, ?_, ?_, ?_, ?_⟩
    · rw [natChars, if_neg hn, List.map_reverse]
    · intro h
      apply hn
      have := natDigits_ofDigits n
      rw [List.reverse_eq_nil_iff.mp h] at this
      simpa [Nat.ofDigits_nil] using this.symm
    · intro d hd
      exact natDigits_lt n d (List.mem_reverse.mp hd)
    · rw [List.reverse_reverse]
      exact natDigits_ofDigits n

/-- The fraction tail of a printed decimal: nothing for `k = 0`, otherwise a
point and exactly `k` digits. -/
def fracTail (fp k : ℕ) : List Char :=
  if k = 0 then [] else '.' :: ((padDigits fp k).map digitChar).reverse

theorem decChars_decomp (m : ℤ) (k : ℕ) :
    decChars m k = (if m < 0 then ['-'] else []) ++
      (natChars (m.natAbs / 10 ^ k) ++ fracTail (m.natAbs % 10 ^ k) k) := by
  rw [decChars, fracTail, List.append_assoc]

theorem fracTail_headNotDigit (fp k : ℕ) : headNotDigit (fracTail fp k) := by
  rw [fracTail]
  split
  · trivial
  · show charDigit '.' = none
    decide

theorem takeDigits_natChars (n : ℕ) (rest : List Char) (hrest : headNotDigit rest) :
    ∃ len, len ≠ 0 ∧ takeDigitsAux 0 0 (natChars n ++ rest) = (n, len, rest) := by
  obtain ⟨ds, hmap, hne, hlt, hval⟩ := natChars_spec n
  refine ⟨ds.length, by simpa using hne, ?_⟩
  rw [hmap, takeDigitsAux_eq ds hlt rest hrest 0 0, hval]
  simp

theorem takeDigits_frac (fp k : ℕ) (hfp : fp < 10 ^ k) :
    takeDigitsAux 0 0 (((padDigits fp k).map digitChar).reverse) = (fp, k, []) := by
  have h1 : ((padDigits fp k).map digitChar).reverse
      = ((padDigits fp k).reverse).map digitChar := (List.map_reverse _ _).symm
  have h2 : ∀ d ∈ (padDigits fp k).reverse, d < 10 :=
    fun d hd => padDigits_lt fp k d (List.mem_reverse.mp hd)
  have h3 := takeDigitsAux_eq ((padDigits fp k).reverse) h2 [] trivial 0 0
  rw [List.append_nil] at h3
  rw [h1, h3, List.reverse_reverse, padDigits_ofDigits]
  simp [padDigits_length fp k hfp]

theorem parseBody_printed (ip fp k : ℕ) (hfp : fp < 10 ^ k) (sgn : ℚ) :
    parseBody sgn (natChars ip ++ fracTail fp k) =
      some (sgn * ((ip : ℚ) + (fp : ℚ) / 10 ^ k)) := by
  obtain ⟨len, hlen, htake⟩ :=
    takeDigits_natChars ip (fracTail fp k) (fracTail_headNotDigit fp k)
  by_cases hk : k = 0
  · subst hk
    have hfp0 : fp = 0 := by omega
    subst hfp0
    rw [fracTail] at htake ⊢
    simp only [if_pos rfl] at htake ⊢
    rw [parseBody, htake]
    simp [hlen]
  · rw [parseBody, htake, fracTail, if_neg hk]
    simp only []
    rw [takeDigits_frac fp k hfp]
    simp [hlen]

theorem parseSign_other (c : Char) (h1 : c ≠ '-') (h2 : c ≠ '+') (r : List Char) :
    parseSign (c :: r) = (1, c :: r) := by
  unfold parseSign
  split
  · rename_i h; injection h; simp_all
  · rename_i h; injection h; simp_all
  · rfl

theorem dropWhile_nospace (c : Char) (h : c ≠ ' ') (l : List Char) :
    (c :: l).dropWhile (fun x => x = ' ') = c :: l := by
  have hb : ¬((fun x => decide (x = ' ')) c = true) := by simp [h]
  rw [List.dropWhile_cons, if_neg hb]

/-- The printed decimal `m / 10 ^ k` parses back to exactly that rational. -/
theorem parseFloat_decString (m : ℤ) (k : ℕ) :
    parseFloat (decString m k) = some ((m : ℚ) / 10 ^ k) := by
  have hlist : (decString m k).toList = decChars m k := rfl
  have hfp : m.natAbs % 10 ^ k < 10 ^ k := Nat.mod_lt _ (pow_pos (by norm_num) k)
  have hval : (((m.natAbs / 10 ^ k : ℕ)) : ℚ) + ((m.natAbs % 10 ^ k : ℕ) : ℚ) / 10 ^ k
      = (m.natAbs : ℚ) / 10 ^ k := by
    have h10 : ((10 : ℚ)) ^ k ≠ 0 := by positivity
    have hdm : ((m.natAbs : ℚ)) =
        10 ^ k * ((m.natAbs / 10 ^ k : ℕ) : ℚ) + ((m.natAbs % 10 ^ k : ℕ) : ℚ) := by
      exact_mod_cast (Nat.div_add_mod m.natAbs (10 ^ k)).symm
    rw [hdm]
    field_simp
    ring
  rw [parseFloat, hlist]
  rcases lt_or_le m 0 with hm | hm
  · have hd : decChars m k =
        '-' :: (natChars (m.natAbs / 10 ^ k) ++ fracTail (m.natAbs % 10 ^ k) k) := by
      rw [decChars_decomp, if_pos hm, List.singleton_append]
    rw [hd, parseFloatAux, dropWhile_nospace '-' (by decide) _]
    have hsgn : parseSign ('-' ::
        (natChars (m.natAbs / 10 ^ k) ++ fracTail (m.natAbs % 10 ^ k) k)) =
        (-1, natChars (m.natAbs / 10 ^ k) ++ fracTail (m.natAbs % 10 ^ k) k) := rfl
    rw [hsgn]
    simp only []
    rw [parseBody_printed _ _ k hfp (-1), hval]
    have habs : ((m.natAbs : ℚ)) = -(m : ℚ) := by
      rw [Int.cast_natAbs, abs_of_neg hm, Int.cast_neg]
    rw [habs]
    ring_nf
  · have hd : decChars m k =
        natChars (m.natAbs / 10 ^ k) ++ fracTail (m.natAbs % 10 ^ k) k := by
      rw [decChars_decomp, if_neg (not_lt.mpr hm), List.nil_append]
    obtain ⟨ds, hmap, hne, hlt, _⟩ := natChars_spec (m.natAbs / 10 ^ k)
    rcases ds with _ | ⟨d0, ds'⟩
    · exact absurd rfl hne
    · have hd0 : d0 < 10 := hlt d0 (List.mem_cons_self d0 ds')
      obtain ⟨hsp, hminus, hplus, _⟩ := digitChar_notSpecial d0 hd0
      have hcons : decChars m k =
          digitChar d0 :: (ds'.map digitChar ++ fracTail (m.natAbs % 10 ^ k) k) := by
        rw [hd, hmap, List.map_cons, List.cons_append]
      rw [hcons, parseFloatAux, dropWhile_nospace _ hsp _,
        parseSign_other _ hminus hplus _]
      simp only []
      have hback : digitChar d0 :: (ds'.map digitChar ++ fracTail (m.natAbs % 10 ^ k) k)
          = natChars (m.natAbs / 10 ^ k) ++ fracTail (m.natAbs % 10 ^ k) k := by
        rw [hmap, List.map_cons, List.cons_append]
      rw [hback, parseBody_printed _ _ k hfp 1, hval]
      have habs : ((m.natAbs : ℚ)) = (m : ℚ) := by
        rw [Int.cast_natAbs, abs_of_nonneg hm]
      rw [habs, one_mul]

/-! ### Corollaries of parser correctness, and the round-trip value map -/

/-- A rational is a finite decimal of at most 30 fraction digits; this is
the set of values for which the modelled `String(x)` serialization is
exact.  Every IEEE double in the range the application works in has such an
expansion. -/
def FiniteDec (q : ℚ) : Prop := (q * 10 ^ 30).den = 1

/-- A possibly-NaN number is either NaN or a finite decimal. -/
def jsNumOk (x : Option ℚ) : Prop := ∀ q, x = some q → FiniteDec q

theorem finiteDec_ofInt (z : ℤ) (q : ℚ) (h : q * 10 ^ 30 = (z : ℚ)) : FiniteDec q := by
  rw [FiniteDec, h, Rat.den_intCast]

theorem parseFloat_numToString (q : ℚ) (h : FiniteDec q) :
    parseFloat (numToString q) = some q := by
  rw [numToString, parseFloat_decString]
  congr 1
  have hq : (((q * 10 ^ 30).num : ℚ)) = q * 10 ^ 30 := by
    conv_rhs => rw [← Rat.num_div_den (q * 10 ^ 30)]
    rw [h]
    simp
  rw [hq]
  field_simp

theorem parseFloat_nan : parseFloat "NaN" = none := by decide

theorem parseFloat_empty : parseFloat "" = none := by decide

/-- The value written by `toFixed(2)` and read back by `parseFloat` is the
original rounded to two decimal places. -/
def roundTo2 (q : ℚ) : ℚ := ((round (q * 100) : ℤ) : ℚ) / 100

theorem parseFloat_jsToFixedTwo (q : ℚ) :
    parseFloat (jsToFixedTwo (some q)) = some (roundTo2 q) := by
  show parseFloat (decString (round (q * 100)) 2) = some (roundTo2 q)
  rw [parseFloat_decString, roundTo2]
  norm_num

/-- Printed numbers are never the empty cell, so the Price column of an
exported row always passes the import presence filter. -/
theorem jsNumToString_ne_empty (x : Option ℚ) : jsNumToString x ≠ "" := by
  cases x with
  | none => decide
  | some q =>
    show numToString q ≠ ""
    rw [numToString, decString]
    intro hcon
    have hnil : decChars (q * 10 ^ 30).num 30 = [] := by
      have := congrArg String.toList hcon
      simpa using this
    obtain ⟨ds, hmap, hne, _, _⟩ := natChars_spec ((q * 10 ^ 30).num.natAbs / 10 ^ 30)
    rw [decChars] at hnil
    rcases List.append_eq_nil.mp hnil with ⟨h1, h2⟩
    rcases List.append_eq_nil.mp h1 with ⟨_, h4⟩
    rw [hmap] at h4
    exact hne (List.map_eq_nil_iff.mp h4)

/-- The `priceInMain` value that survives one export-import cycle:
`parseFloat(row[Price in Main]) || parseFloat(row.Price)` applied to the
`toFixed(2)` rendering, so NaN passes through to the raw price, a value
rounding to 0 falls back to the raw price (0 is falsy), and any other value
comes back rounded to two decimal places. -/
def importedPriceInMain (pim price : Option ℚ) : Option ℚ :=
  match pim with
  | none => price
  | some q => if roundTo2 q = 0 then price else some (roundTo2 q)

/-- The record produced for a transaction by one export-import cycle: the
date, name, price, currency, category and payment method survive, the id
and createdAt are freshly generated, and `priceInMain` is transformed by
`importedPriceInMain`. -/
def roundTripTx (idGen : ℕ → String) (now : String) (i : ℕ) (t : Transaction) :
    Transaction :=
  { t with
    id := idGen i
    createdAt := now
    priceInMain := importedPriceInMain t.priceInMain t.price }

/-- Pointwise image of a transaction list under one export-import cycle,
threading the fresh-id counter. -/
def roundTripList (idGen : ℕ → String) (now : String) :
    ℕ → List Transaction → List Transaction
  | _, [] => []
  | i, t :: rest => roundTripTx idGen now i t :: roundTripList idGen now (i + 1) rest

/-- Importing the exported row of a well-formed transaction reproduces the
record up to fresh id, fresh timestamp and the two-decimal rounding of
`priceInMain`. -/
theorem importTx_exportRow (main idv now : String) (t : Transaction)
    (hcur : t.currency ≠ "") (hp : jsNumOk t.price) :
    importTx main idv now (exportRow main t) = roundTripTx (fun _ => idv) now 0 t := by
  have hprice : parseFloat (jsNumToString t.price) = t.price := by
    cases hx : t.price with
    | none => exact parseFloat_nan
    | some q =>
      show parseFloat (numToString q) = some q
      exact parseFloat_numToString q (hp q hx)
  have hpim : jsOr (parseFloat (jsToFixedTwo t.priceInMain)) (parseFloat (jsNumToString t.price))
      = importedPriceInMain t.priceInMain t.price := by
    cases hx : t.priceInMain with
    | none =>
      show jsOr (parseFloat "NaN") _ = _
      rw [parseFloat_nan, hprice]
      rfl
    | some q =>
      rw [parseFloat_jsToFixedTwo q, hprice]
      rfl
  rw [hprice] at hpim
  simp only [importTx, exportRow, roundTripTx, hprice, hpim, if_neg hcur]

/-- Core of the CSV round trip: with the main currency unchanged, importing
the exported rows yields exactly the pointwise round-trip image. -/
theorem importRows_exportToCSV (main : String) (idGen : ℕ → String) (now : String)
    (ts : List Transaction)
    (h : ∀ t ∈ ts, t.date ≠ "" ∧ t.name ≠ "" ∧ t.currency ≠ "" ∧ jsNumOk t.price) :
    ∀ i, importRows main idGen now i (exportToCSV main ts) = roundTripList idGen now i ts := by
  induction ts with
  | nil => intro i; rfl
  | cons t rest ih =>
    intro i
    obtain ⟨hd, hn, hc, hp⟩ := h t (List.mem_cons_self t rest)
    have hrest := fun x hx => h x (List.mem_cons_of_mem t hx)
    have hacc : acceptRow (exportRow main t) = true := by
      simp [acceptRow, exportRow, hd, hn, jsNumToString_ne_empty t.price]
    rw [exportToCSV, List.map_cons, importRows, if_pos hacc]
    have hone := importTx_exportRow main (idGen i) now t hc hp
    rw [hone]
    have htail := ih hrest (i + 1)
    rw [exportToCSV] at htail
    rw [htail, roundTripList]
    rfl

/-! ### Helper lemmas about the form controller and the rate table -/

/-- The transaction list produced by a submit: unchanged on a failed
emptiness check, otherwise replace-by-id (when editing) or append. -/
theorem handleAdd_transactions (rates : List (String × ℚ)) (main newId now today : String)
    (st : AppState) :
    (handleAddTransaction rates main newId now today st).transactions =
      if st.formData.name = "" ∨ st.formData.price = "" then st.transactions
      else
        match st.editingTransaction with
        | some e => st.transactions.map
            (fun t => if t.id = e.id then mkFormTransaction rates main newId now st else t)
        | none => st.transactions ++ [mkFormTransaction rates main newId now st] := by
  rw [handleAddTransaction]
  split
  · rfl
  · rfl

theorem rateOr1_ne_zero (rates : List (String × ℚ)) (c : String) : rateOr1 rates c ≠ 0 := by
  rw [rateOr1]
  cases hl : lookupRate rates c with
  | none => norm_num
  | some r =>
    rcases eq_or_ne r 0 with h | h
    · simp [h]
    · simp [h]

/-! ### Claim C10 -/

/-- C10: converting an amount whose currency is the main currency is the
identity: for every rate table, every amount and every currency `c`, with
the main currency set to `c`, `convertToMainCurrency` returns the amount
unchanged, including when `c` is absent from the table, because the source
rate and the main rate are the same defaulted value. -/
theorem c10_convert_identity (rates : List (String × ℚ)) (amount : ℚ) (c : String) :
    convertToMainCurrency rates c amount c = amount := by
  rw [convertToMainCurrency]
  exact div_mul_cancel₀ amount (rateOr1_ne_zero rates c)

/-! ### Claim C3 -/

/-- C3 counterexample: with the rate table that stores rate 0 for USD, the
converter returns 1 for amount 1 (the stored 0 is falsy and is defaulted to
1 by `|| 1`), while the formula of the claim, `(amount / rate[from]) * rate[to]`
with only missing rates defaulted to 1, yields 0, so the claim as stated
fails on tables containing a zero rate. -/
theorem c3_counterexample :
    convertToMainCurrency [("USD", 0)] "EUR" 1 "USD" = 1 ∧
    (1 : ℚ) / ((lookupRate [("USD", 0)] "USD").getD 1) *
      ((lookupRate [("USD", 0)] "EUR").getD 1) = 0 ∧
    (1 : ℚ) ≠ 0 := by
  have husd : lookupRate [("USD", (0 : ℚ))] "USD" = some 0 := by
    rw [lookupRate, List.find?_cons_of_pos _ (by decide)]
    rfl
  have heur : lookupRate [("USD", (0 : ℚ))] "EUR" = none := by
    rw [lookupRate, List.find?_cons_of_neg _ (by decide)]
    rfl
  refine ⟨?_, ?_, one_ne_zero⟩
  · rw [convertToMainCurrency, rateOr1, rateOr1, husd, heur]
    norm_num
  · rw [husd, heur]
    norm_num

/-- C3 (amended): for every rate table all of whose stored rates are
nonzero, the converter returns `(amount / rate[from]) * rate[to]` with a
missing rate defaulted to 1; a stored zero rate would additionally be
defaulted to 1 by the code. -/
theorem c3_convert_formula (rates : List (String × ℚ)) (main c : String) (amount : ℚ)
    (h : ∀ p ∈ rates, p.2 ≠ 0) :
    convertToMainCurrency rates main amount c =
      amount / ((lookupRate rates c).getD 1) * ((lookupRate rates main).getD 1) := by
  have key : ∀ x, rateOr1 rates x = (lookupRate rates x).getD 1 := by
    intro x
    rw [rateOr1]
    cases hl : lookupRate rates x with
    | none => rfl
    | some r =>
      have hr : r ≠ 0 := by
        rw [lookupRate] at hl
        cases hf : rates.find? (fun p => p.1 == x) with
        | none => rw [hf] at hl; simp at hl
        | some p =>
          rw [hf] at hl
          simp at hl
          have hmem := h p (List.mem_of_find?_eq_some hf)
          rwa [hl] at hmem
      simp [hr]
  rw [convertToMainCurrency, key, key]

/-- Witness for C3 at the rate table of the application. -/
theorem c3_convert_formula_witness :
    convertToMainCurrency [("EUR", 1), ("USD", 11 / 10)] "EUR" 100 "USD" =
      100 / ((lookupRate [("EUR", 1), ("USD", 11 / 10)] "USD").getD 1) *
        ((lookupRate [("EUR", 1), ("USD", 11 / 10)] "EUR").getD 1) := by
  refine c3_convert_formula _ _ _ _ ?_
  intro p hp
  rcases List.mem_cons.mp hp with h | h
  · rw [h]; norm_num
  · rw [List.mem_singleton.mp h]; norm_num

/-! ### Claim C2 -/

/-- The standard rate table of the local variant. -/
def ratesStd : List (String × ℚ) := [("EUR", 1), ("USD", 11 / 10)]

/-- A CSV row carrying a price of 100 USD and no Price in Main cell. -/
def row100 : CsvRow :=
  { date := "2024-01-01", name := "Coffee", price := "100", currency := "USD"
    priceInMain := "", mainCurrency := "", category := "", paymentMethod := "" }

/-- C2 counterexample: importing a row with price 100 USD and an empty
Price in Main column creates a record whose `priceInMain` is 100, the raw
parsed price, while converting 100 USD into the main currency EUR through
the rate table gives 1000/11; the import path does not maintain the
conversion invariant. -/
theorem c2_counterexample :
    ((importFromCSV "EUR" (fun _ => "fresh") "now" [row100] []).map
      (fun t => t.priceInMain)) = [some 100] ∧
    convertToMainCurrency ratesStd "EUR" 100 "USD" = 1000 / 11 ∧
    some ((100 : ℚ)) ≠ some ((1000 : ℚ) / 11) := by
  have h100 : parseFloat "100" = some 100 := by
    have he : "100" = decString 100 0 := by decide
    rw [he, parseFloat_decString]
    norm_num
  refine ⟨?_, ?_, ?_⟩
  · have hacc : acceptRow row100 = true := by decide
    rw [importFromCSV, List.nil_append, importRows, if_pos hacc, importRows]
    show [jsOr (parseFloat "") (parseFloat "100")] = [some 100]
    rw [parseFloat_empty, h100]
    rfl
  · have husd : lookupRate ratesStd "USD" = some (11 / 10) := by
      rw [ratesStd, lookupRate, List.find?_cons_of_neg _ (by decide),
        List.find?_cons_of_pos _ (by decide)]
      rfl
    have heur : lookupRate ratesStd "EUR" = some 1 := by
      rw [ratesStd, lookupRate, List.find?_cons_of_pos _ (by decide)]
      rfl
    rw [convertToMainCurrency, rateOr1, rateOr1, husd, heur]
    norm_num
  · simp only [ne_eq, Option.some.injEq]
    norm_num

/-- C2 (amended): at the moment a record is written by the form-submit path
(both plain add and edit), its `priceInMain` equals the parsed price
converted through the rate table into the current main currency; every
record present after a submit either was already in the store or satisfies
this invariant.  The CSV import path does not: it takes `priceInMain` from
the file or from the raw price (see the counterexample). -/
theorem c2_priceInMain_formSubmit (rates : List (String × ℚ))
    (main newId now today : String) (st : AppState) (t : Transaction)
    (ht : t ∈ (handleAddTransaction rates main newId now today st).transactions) :
    t ∈ st.transactions ∨
      t.priceInMain = (parseFloat st.formData.price).map
        (fun a => convertToMainCurrency rates main a st.formData.currency) := by
  rw [handleAdd_transactions] at ht
  by_cases hv : st.formData.name = "" ∨ st.formData.price = ""
  · rw [if_pos hv] at ht
    exact Or.inl ht
  · rw [if_neg hv] at ht
    cases he : st.editingTransaction with
    | some e =>
      rw [he] at ht
      obtain ⟨x, hx, hxe⟩ := List.mem_map.mp ht
      by_cases hid : x.id = e.id
      · rw [if_pos hid] at hxe
        right
        rw [← hxe]
        rfl
      · rw [if_neg hid] at hxe
        exact Or.inl (hxe ▸ hx)
    | none =>
      rw [he] at ht
      rcases List.mem_append.mp ht with hmem | hmem
      · exact Or.inl hmem
      · right
        rw [List.mem_singleton.mp hmem]
        rfl

/-- The state of the form just before submitting a new 100 USD record. -/
def stCoffee : AppState :=
  { transactions := []
    showAddForm := true
    editingTransaction := none
    formData :=
      { date := "2024-01-01", name := "Coffee", price := "100", currency := "USD"
        category := "", paymentMethod := "" } }

/-- Witness for C2: the record created by submitting the form of `stCoffee`
satisfies the conversion invariant. -/
theorem c2_priceInMain_formSubmit_witness :
    mkFormTransaction ratesStd "EUR" "i" "n" stCoffee ∈ stCoffee.transactions ∨
      (mkFormTransaction ratesStd "EUR" "i" "n" stCoffee).priceInMain =
        (parseFloat stCoffee.formData.price).map
          (fun a => convertToMainCurrency ratesStd "EUR" a stCoffee.formData.currency) := by
  refine c2_priceInMain_formSubmit ratesStd "EUR" "i" "n" "d" stCoffee _ ?_
  rw [handleAdd_transactions, if_neg (by decide)]
  show _ ∈ [] ++ [mkFormTransaction ratesStd "EUR" "i" "n" stCoffee]
  rw [List.nil_append]
  exact List.mem_singleton.mpr rfl

/-! ### Claim C4 -/

/-- The state of the form with a non-empty but unparseable price field. -/
def stAbc : AppState :=
  { transactions := []
    showAddForm := true
    editingTransaction := none
    formData :=
      { date := "2024-01-01", name := "Lunch", price := "abc", currency := "EUR"
        category := "", paymentMethod := "" } }

/-- C4 counterexample: the price field "abc" is not parseable as a number
(`parseFloat` yields NaN), yet the submit handler accepts the form, because
the source only checks that name and price are non-empty strings; a record
is added to the store although the claim requires the store to stay
unchanged on a validation failure. -/
theorem c4_counterexample :
    parseFloat "abc" = none ∧
    (handleAddTransaction [] "EUR" "i" "n" "d" stAbc).transactions ≠
      stAbc.transactions := by
  refine ⟨by decide, ?_⟩
  rw [handleAdd_transactions, if_neg (by decide)]
  show [] ++ [mkFormTransaction [] "EUR" "i" "n" stAbc] ≠ []
  simp

/-- C4 (amended): the submit handler validates only that name and price are
non-empty strings (parseability is not checked; an unparseable non-empty
price produces a record with NaN price).  When the emptiness check fails,
the whole component state is left unchanged, so the failure is recoverable,
the store is untouched and the form stays open; when it passes, the store
is mutated by the add-or-update keyed on the edit target and the form is
closed. -/
theorem c4_validation (rates : List (String × ℚ)) (main newId now today : String)
    (st : AppState) :
    ((st.formData.name = "" ∨ st.formData.price = "") →
      handleAddTransaction rates main newId now today st = st) ∧
    (st.formData.name ≠ "" → st.formData.price ≠ "" →
      (handleAddTransaction rates main newId now today st).transactions =
        (match st.editingTransaction with
         | some e => st.transactions.map
             (fun t => if t.id = e.id then mkFormTransaction rates main newId now st else t)
         | none => st.transactions ++ [mkFormTransaction rates main newId now st]) ∧
      (handleAddTransaction rates main newId now today st).showAddForm = false) := by
  constructor
  · intro h
    rw [handleAddTransaction, if_pos h]
  · intro h1 h2
    have hv : ¬(st.formData.name = "" ∨ st.formData.price = "") := not_or.mpr ⟨h1, h2⟩
    refine ⟨?_, ?_⟩
    · rw [handleAdd_transactions, if_neg hv]
    · rw [handleAddTransaction, if_neg hv]
      rfl

/-- The state of the form with an empty price field. -/
def stEmptyPrice : AppState :=
  { transactions := []
    showAddForm := true
    editingTransaction := none
    formData :=
      { date := "2024-01-01", name := "Lunch", price := "", currency := "EUR"
        category := "", paymentMethod := "" } }

/-- Witness for C4: submitting with an empty price leaves the whole state
unchanged. -/
theorem c4_validation_witness :
    handleAddTransaction [] "EUR" "i" "n" "d" stEmptyPrice = stEmptyPrice :=
  (c4_validation [] "EUR" "i" "n" "d" stEmptyPrice).1 (Or.inr rfl)

/-! ### Claim C5 -/

/-- C5: when ids are unique and the id is present, deleting by id removes
exactly the record with that id: the store decomposes as `l ++ t :: r` with
`t.id = id`, and the deletion result is `l ++ r`, every other record kept
unchanged and in order. -/
theorem c5_delete_removes_exactly (ts : List Transaction) (id : String)
    (hnd : (ts.map (fun t => t.id)).Nodup) (hmem : ∃ t ∈ ts, t.id = id) :
    ∃ l r t, ts = l ++ t :: r ∧ t.id = id ∧ handleDelete id ts = l ++ r := by
  obtain ⟨t, ht, htid⟩ := hmem
  obtain ⟨l, r, rfl⟩ := List.append_of_mem ht
  refine ⟨l, r, t, rfl, htid, ?_⟩
  rw [List.map_append, List.map_cons, List.nodup_append] at hnd
  obtain ⟨_, hndr, hdisj⟩ := hnd
  have hnotl : t.id ∉ l.map (fun t => t.id) := fun hin =>
    hdisj hin (List.mem_cons_self _ _)
  have hnotr : t.id ∉ r.map (fun t => t.id) := (List.nodup_cons.mp hndr).1
  have hfl : l.filter (fun x => x.id != id) = l := by
    rw [List.filter_eq_self]
    intro x hx
    have : x.id ≠ id := by
      intro hxe
      exact hnotl (htid ▸ hxe ▸ List.mem_map_of_mem (fun t => t.id) hx)
    simpa using this
  have hfr : r.filter (fun x => x.id != id) = r := by
    rw [List.filter_eq_self]
    intro x hx
    have : x.id ≠ id := by
      intro hxe
      exact hnotr (htid ▸ hxe ▸ List.mem_map_of_mem (fun t => t.id) hx)
    simpa using this
  rw [handleDelete, List.filter_append, List.filter_cons]
  have hdrop : (t.id != id) = false := by simp [htid]
  rw [hdrop, hfl, hfr]
  simp

/-- Two sample records with distinct ids. -/
def txA : Transaction :=
  { id := "1", date := "2024-01-01", name := "A", price := some 1, currency := "EUR"
    priceInMain := some 1, category := "", paymentMethod := "", createdAt := "c" }

/-- A second sample record. -/
def txB : Transaction :=
  { id := "2", date := "2024-01-02", name := "B", price := some 2, currency := "USD"
    priceInMain := some 2, category := "", paymentMethod := "", createdAt := "c" }

/-- Witness for C5 on a concrete two-element store. -/
theorem c5_delete_removes_exactly_witness :
    ∃ l r t, [txA, txB] = l ++ t :: r ∧ t.id = "2" ∧
      handleDelete "2" [txA, txB] = l ++ r :=
  c5_delete_removes_exactly [txA, txB] "2" (by decide)
    ⟨txB, by simp, rfl⟩

/-! ### Claim C6 -/

/-- Edit submits in the local variant (`part_000`) perform a full-record
replace keyed on the id of the edit target: every record with the target id
is wholly replaced by the record rebuilt from the form values, keeping the
target id and createdAt unchanged, and every record with another id is
unchanged and keeps its position; the hypotheses require the target to have
a non-empty id and createdAt (the data-model well-formedness of a stored
record) and the form to pass validation.  The synced variant behaves
differently on createdAt; see the synced-variant section below. -/
theorem c6_edit_replaces (rates : List (String × ℚ)) (main newId now today : String)
    (st : AppState) (e : Transaction)
    (he : st.editingTransaction = some e) (hid : e.id ≠ "") (hca : e.createdAt ≠ "")
    (hn : st.formData.name ≠ "") (hp : st.formData.price ≠ "") :
    (handleAddTransaction rates main newId now today st).transactions =
      st.transactions.map (fun t => if t.id = e.id then
        { id := e.id
          date := st.formData.date
          name := st.formData.name
          price := parseFloat st.formData.price
          currency := st.formData.currency
          priceInMain := (parseFloat st.formData.price).map
            (fun a => convertToMainCurrency rates main a st.formData.currency)
          category := st.formData.category
          paymentMethod := st.formData.paymentMethod
          createdAt := e.createdAt } else t) ∧
    ∀ t ∈ st.transactions, t.id ≠ e.id →
      t ∈ (handleAddTransaction rates main newId now today st).transactions := by
  have hv : ¬(st.formData.name = "" ∨ st.formData.price = "") := not_or.mpr ⟨hn, hp⟩
  have hmk : mkFormTransaction rates main newId now st =
      { id := e.id
        date := st.formData.date
        name := st.formData.name
        price := parseFloat st.formData.price
        currency := st.formData.currency
        priceInMain := (parseFloat st.formData.price).map
          (fun a => convertToMainCurrency rates main a st.formData.currency)
        category := st.formData.category
        paymentMethod := st.formData.paymentMethod
        createdAt := e.createdAt } := by
    rw [mkFormTransaction]
    simp only [he, if_neg hid, if_neg hca]
  have hmain : (handleAddTransaction rates main newId now today st).transactions =
      st.transactions.map (fun t => if t.id = e.id then
        { id := e.id
          date := st.formData.date
          name := st.formData.name
          price := parseFloat st.formData.price
          currency := st.formData.currency
          priceInMain := (parseFloat st.formData.price).map
            (fun a => convertToMainCurrency rates main a st.formData.currency)
          category := st.formData.category
          paymentMethod := st.formData.paymentMethod
          createdAt := e.createdAt } else t) := by
    rw [handleAdd_transactions, if_neg hv]
    simp only [he, hmk]
  refine ⟨hmain, ?_⟩
  intro t ht htne
  rw [hmain]
  refine List.mem_map.mpr ⟨t, ht, ?_⟩
  rw [if_neg htne]

/-- The state of the form while editing record `txB` of the two-element
store. -/
def stEdit : AppState :=
  { transactions := [txA, txB]
    showAddForm := true
    editingTransaction := some txB
    formData :=
      { date := "2024-01-03", name := "B2", price := "7", currency := "EUR"
        category := "Food", paymentMethod := "Cash" } }

/-- Concrete instance of the local-variant edit replacement of `txB`. -/
theorem c6_edit_replaces_witness :
    (handleAddTransaction ratesStd "EUR" "i" "n" "d" stEdit).transactions =
      stEdit.transactions.map (fun t => if t.id = txB.id then
        { id := txB.id
          date := stEdit.formData.date
          name := stEdit.formData.name
          price := parseFloat stEdit.formData.price
          currency := stEdit.formData.currency
          priceInMain := (parseFloat stEdit.formData.price).map
            (fun a => convertToMainCurrency ratesStd "EUR" a stEdit.formData.currency)
          category := stEdit.formData.category
          paymentMethod := stEdit.formData.paymentMethod
          createdAt := txB.createdAt } else t) ∧
    ∀ t ∈ stEdit.transactions, t.id ≠ txB.id →
      t ∈ (handleAddTransaction ratesStd "EUR" "i" "n" "d" stEdit).transactions :=
  c6_edit_replaces ratesStd "EUR" "i" "n" "d" stEdit txB rfl (by decide) (by decide)
    (by decide) (by decide)

/-! ### The synced variant: the edit path overwrites createdAt -/

/-- A transaction record of the synced variant (the `Transaction` interface
of `App.tsx`): the fields of the local variant plus the owner identifier
that the snapshot mapping attaches. -/
structure SyncedTransaction where
  id : String
  date : String
  name : String
  price : Option ℚ
  currency : String
  priceInMain : Option ℚ
  category : String
  paymentMethod : String
  createdAt : String
  userId : String
deriving DecidableEq

/-- The document data written by the synced submit handler
(`transactionData` in `App.tsx`): the form values, the parsed price and its
conversion, the session owner, and `createdAt: serverTimestamp()` — the
fresh server timestamp is part of the payload for the edit branch too.
Here `serverNow` is the string the snapshot mapping later renders the
resolved server timestamp to, and `docId` is the id of the document the
data lands in. -/
def syncedPayloadTx (rates : List (String × ℚ)) (main uid serverNow : String)
    (fd : FormData) (docId : String) : SyncedTransaction :=
  let p := parseFloat fd.price
  { id := docId
    date := fd.date
    name := fd.name
    price := p
    currency := fd.currency
    priceInMain := p.map (fun a => convertToMainCurrency rates main a fd.currency)
    category := fd.category
    paymentMethod := fd.paymentMethod
    createdAt := serverNow
    userId := uid }

/-- Model of the synced `handleAddTransaction` from `App.tsx` for a
signed-in session (the source guard also bails out when no user is signed
in), as seen in the owner-scoped store after the next snapshot: on a failed
emptiness check nothing is written; when an edit target is set, `updateDoc`
replaces every listed field of the document carrying the target id — every
field of the payload, `createdAt` included — while the document id itself
is unchanged; otherwise `addDoc` creates a fresh document from the same
payload. -/
def handleAddTransactionSynced (rates : List (String × ℚ))
    (main uid serverNow newDocId : String) (fd : FormData)
    (editing : Option SyncedTransaction) (ts : List SyncedTransaction) :
    List SyncedTransaction :=
  if fd.name = "" ∨ fd.price = "" then ts
  else
    match editing with
    | some e => ts.map (fun t =>
        if t.id = e.id then syncedPayloadTx rates main uid serverNow fd t.id else t)
    | none => ts ++ [syncedPayloadTx rates main uid serverNow fd newDocId]

/-- A stored record of the synced variant, created on 2024-01-02. -/
def syncedTxB : SyncedTransaction :=
  { id := "2", date := "2024-01-02", name := "B", price := some 2, currency := "USD"
    priceInMain := some 2, category := "", paymentMethod := ""
    createdAt := "2024-01-02T10:00:00Z", userId := "u1" }

/-- The form values of an edit of `syncedTxB`. -/
def fdEditB : FormData :=
  { date := "2024-01-03", name := "B2", price := "7", currency := "EUR"
    category := "Food", paymentMethod := "Cash" }

/-- C6: editing is claimed to preserve the targeted record id and createdAt
in every variant, and the local variant (proven above) does; but the edit
path of the synced variant puts `createdAt: serverTimestamp()` into the
`updateDoc` payload, so submitting the edit of `syncedTxB` at server time
2024-02-01T00:00:00Z keeps the document id 2 in place yet rewrites its
createdAt to the edit time instead of the creation time
2024-01-02T10:00:00Z that the claim (and the data model, createdAt
immutable after creation) require. -/
theorem c6_synced_createdAt_overwritten :
    ((handleAddTransactionSynced ratesStd "EUR" "u1" "2024-02-01T00:00:00Z" "new"
        fdEditB (some syncedTxB) [syncedTxB]).map (fun t => (t.id, t.createdAt))) =
      [("2", "2024-02-01T00:00:00Z")] ∧
    "2024-02-01T00:00:00Z" ≠ syncedTxB.createdAt := by
  exact ⟨by decide, by decide⟩

/-! ### Claim C7 -/

theorem totalSpent_aux (ts : List Transaction) (h : ∀ t ∈ ts, t.priceInMain ≠ none) :
    ∀ q : ℚ, ts.foldl (fun s t => jsAdd s t.priceInMain) (some q) =
      some (q + (ts.map (fun t => t.priceInMain.getD 0)).sum) := by
  induction ts with
  | nil => intro q; simp
  | cons t rest ih =>
    intro q
    cases hx : t.priceInMain with
    | none => exact absurd hx (h t (List.mem_cons_self t rest))
    | some x =>
      have hrest := fun y hy => h y (List.mem_cons_of_mem t hy)
      rw [List.foldl_cons]
      have hstep : jsAdd (some q) t.priceInMain = some (q + x) := by rw [hx]; rfl
      rw [hstep, ih hrest (q + x), List.map_cons, List.sum_cons, hx]
      simp [add_assoc]

/-- C7: the aggregator total is the sum of `priceInMain` over all records
and the average is the total divided by the record count, 0 for the empty
count; stated for stores whose records carry proper (non-NaN) values, which
makes the empty store yield total 0 and average 0. -/
theorem c7_total_average (ts : List Transaction)
    (h : ∀ t ∈ ts, t.priceInMain ≠ none) :
    totalSpent ts = some ((ts.map (fun t => t.priceInMain.getD 0)).sum) ∧
    avgTransaction ts = some (if ts.length = 0 then 0
      else (ts.map (fun t => t.priceInMain.getD 0)).sum / (ts.length : ℚ)) := by
  have htot : totalSpent ts = some ((ts.map (fun t => t.priceInMain.getD 0)).sum) := by
    rw [totalSpent, totalSpent_aux ts h 0, zero_add]
  refine ⟨htot, ?_⟩
  rw [avgTransaction]
  by_cases hl : ts.length = 0
  · rw [if_neg (by omega), if_pos hl]
  · rw [if_pos (by omega), htot, if_neg hl]
    rfl

/-- Witness for C7 on a concrete two-element store. -/
theorem c7_total_average_witness :
    totalSpent [txA, txB] = some (([txA, txB].map (fun t => t.priceInMain.getD 0)).sum) ∧
    avgTransaction [txA, txB] = some (if ([txA, txB] : List Transaction).length = 0 then 0
      else ([txA, txB].map (fun t => t.priceInMain.getD 0)).sum /
        (([txA, txB] : List Transaction).length : ℚ)) :=
  c7_total_average [txA, txB] (by decide)

/-! ### Claim C8 -/

/-- The currency codes of a transaction list in insertion order of first
occurrence: the grouping order the dashboard displays. -/
def insOrderKeys (ts : List Transaction) : List String :=
  ts.foldl (fun acc t => if t.currency ∈ acc then acc else acc ++ [t.currency]) []

/-- Sum of a list of possibly-NaN numbers in JavaScript addition. -/
def sumPrices (l : List (Option ℚ)) : Option ℚ := l.foldl jsAdd (some 0)

/-- Sum of the raw prices of the transactions of one currency, in store
order. -/
def currencyTotal (ts : List Transaction) (c : String) : Option ℚ :=
  sumPrices ((ts.filter (fun t => t.currency == c)).map (fun t => t.price))

theorem jsAdd_zero (x : Option ℚ) : jsAdd (some 0) x = x := by
  cases x <;> simp [jsAdd]

theorem addCurrency_notMem (l : List (String × Option ℚ)) (t : Transaction)
    (h : t.currency ∉ l.map Prod.fst) :
    addCurrency l t = l ++ [(t.currency, t.price)] := by
  induction l with
  | nil => rfl
  | cons e l ih =>
    rw [List.map_cons, List.mem_cons] at h
    push_neg at h
    rw [addCurrency, if_neg (fun he => h.1 he.symm), ih h.2]
    rfl

theorem addCurrency_mem (l : List (String × Option ℚ)) (t : Transaction)
    (hnd : (l.map Prod.fst).Nodup) (h : t.currency ∈ l.map Prod.fst) :
    addCurrency l t =
      l.map (fun e => if e.1 = t.currency then (e.1, jsAdd e.2 t.price) else e) := by
  induction l with
  | nil => simp at h
  | cons e l ih =>
    rw [List.map_cons, List.nodup_cons] at hnd
    rw [List.map_cons, List.mem_cons] at h
    by_cases he : e.1 = t.currency
    · rw [addCurrency, if_pos he, List.map_cons, if_pos he]
      congr 1
      have hall : ∀ x ∈ l,
          (if x.1 = t.currency then ((x.1, jsAdd x.2 t.price) : String × Option ℚ) else x)
            = x := by
        intro x hx
        rw [if_neg]
        intro hxc
        exact hnd.1 (he ▸ hxc ▸ List.mem_map_of_mem Prod.fst hx)
      rw [List.map_congr_left hall]
      simp
    · rw [addCurrency, if_neg he, List.map_cons, if_neg he]
      congr 1
      apply ih hnd.2
      rcases h with h | h
      · exact absurd h.symm he
      · exact h

theorem mem_insOrderKeys_aux (ts : List Transaction) :
    ∀ (acc : List String) (x : String),
      x ∈ ts.foldl (fun acc t => if t.currency ∈ acc then acc else acc ++ [t.currency]) acc ↔
        x ∈ acc ∨ x ∈ ts.map (fun t => t.currency) := by
  induction ts with
  | nil => intro acc x; simp
  | cons t rest ih =>
    intro acc x
    rw [List.foldl_cons, ih, List.map_cons, List.mem_cons]
    by_cases hc : t.currency ∈ acc
    · rw [if_pos hc]
      constructor
      · rintro (h | h)
        · exact Or.inl h
        · exact Or.inr (Or.inr h)
      · rintro (h | h | h)
        · exact Or.inl h
        · exact Or.inl (h ▸ hc)
        · exact Or.inr h
    · rw [if_neg hc, List.mem_append, List.mem_singleton]
      tauto

theorem mem_insOrderKeys (ts : List Transaction) (x : String) :
    x ∈ insOrderKeys ts ↔ x ∈ ts.map (fun t => t.currency) := by
  rw [insOrderKeys, mem_insOrderKeys_aux]
  simp

theorem insOrderKeys_nodup_aux (ts : List Transaction) :
    ∀ acc : List String, acc.Nodup →
      (ts.foldl (fun acc t => if t.currency ∈ acc then acc else acc ++ [t.currency]) acc).Nodup := by
  induction ts with
  | nil => intro acc h; exact h
  | cons t rest ih =>
    intro acc h
    rw [List.foldl_cons]
    apply ih
    by_cases hc : t.currency ∈ acc
    · rw [if_pos hc]; exact h
    · rw [if_neg hc, List.nodup_append]
      refine ⟨h, List.nodup_singleton _, ?_⟩
      intro a ha hb
      rw [List.mem_singleton] at hb
      exact hc (hb ▸ ha)

theorem insOrderKeys_nodup (ts : List Transaction) : (insOrderKeys ts).Nodup :=
  insOrderKeys_nodup_aux ts [] List.nodup_nil

theorem insOrderKeys_append (ts : List Transaction) (t : Transaction) :
    insOrderKeys (ts ++ [t]) =
      if t.currency ∈ insOrderKeys ts then insOrderKeys ts
      else insOrderKeys ts ++ [t.currency] := by
  rw [insOrderKeys, insOrderKeys, List.foldl_append]
  rfl

theorem spendingByCurrency_append (ts : List Transaction) (t : Transaction) :
    spendingByCurrency (ts ++ [t]) = addCurrency (spendingByCurrency ts) t := by
  rw [spendingByCurrency, spendingByCurrency, List.foldl_append]
  rfl

theorem currencyTotal_append (ts : List Transaction) (t : Transaction) (c : String) :
    currencyTotal (ts ++ [t]) c =
      if c = t.currency then jsAdd (currencyTotal ts c) t.price
      else currencyTotal ts c := by
  rw [currencyTotal, currencyTotal, List.filter_append]
  by_cases hc : c = t.currency
  · have hf : List.filter (fun x => x.currency == c) [t] = [t] := by
      simp [List.filter_cons, hc]
    rw [if_pos hc, hf, List.map_append, sumPrices, sumPrices, List.foldl_append]
    rfl
  · have hf : List.filter (fun x => x.currency == c) [t] = [] := by
      have hne : (t.currency == c) = false := by
        simp
        exact fun hx => hc hx.symm
      simp [List.filter_cons, hne]
    rw [if_neg hc, hf, List.append_nil]

theorem currencyTotal_notMem (ts : List Transaction) (c : String)
    (h : c ∉ insOrderKeys ts) : currencyTotal ts c = some 0 := by
  have hfe : ts.filter (fun t => t.currency == c) = [] := by
    rw [List.filter_eq_nil_iff]
    intro t ht
    simp only [beq_iff_eq]
    intro hc
    exact h ((mem_insOrderKeys ts c).mpr (hc ▸ List.mem_map_of_mem _ ht))
  rw [currencyTotal, hfe]
  rfl

/-- C8: the per-currency series groups the store by currency code, sums the
raw `price` field (not `priceInMain`) inside each group in store order, and
lists the groups in the insertion order of the first occurrence of each
currency. -/
theorem c8_spendingByCurrency (ts : List Transaction) :
    spendingByCurrency ts =
      (insOrderKeys ts).map (fun c => (c, currencyTotal ts c)) := by
  induction ts using List.reverseRecOn with
  | nil => rfl
  | append_singleton ts t ih =>
    rw [spendingByCurrency_append, ih, insOrderKeys_append]
    have hkeys : ((insOrderKeys ts).map (fun c => (c, currencyTotal ts c))).map Prod.fst
        = insOrderKeys ts := by
      rw [List.map_map]
      show List.map id (insOrderKeys ts) = insOrderKeys ts
      exact List.map_id _
    by_cases hc : t.currency ∈ insOrderKeys ts
    · rw [if_pos hc]
      rw [addCurrency_mem _ t (by rw [hkeys]; exact insOrderKeys_nodup ts)
        (by rw [hkeys]; exact hc)]
      rw [List.map_map]
      apply List.map_congr_left
      intro c hcmem
      show (if c = t.currency then ((c, jsAdd (currencyTotal ts c) t.price) : String × Option ℚ)
            else (c, currencyTotal ts c)) = (c, currencyTotal (ts ++ [t]) c)
      rw [currencyTotal_append]
      by_cases hct : c = t.currency
      · rw [if_pos hct, if_pos hct]
      · rw [if_neg hct, if_neg hct]
    · rw [if_neg hc]
      rw [addCurrency_notMem _ t (by rw [hkeys]; exact hc), List.map_append]
      congr 1
      · apply List.map_congr_left
        intro c hcmem
        have hne : ¬(c = t.currency) := fun hceq => hc (hceq ▸ hcmem)
        show ((c, currencyTotal ts c) : String × Option ℚ) = (c, currencyTotal (ts ++ [t]) c)
        rw [currencyTotal_append, if_neg hne]
      · rw [List.map_singleton, currencyTotal_append, if_pos rfl,
          currencyTotal_notMem ts _ hc, jsAdd_zero]

/-! ### Claim C9 -/

/-- Indexed map of accepted rows to records, with the fresh-id counter made
explicit; the specification shape of the import (filter, then map). -/
def specMapIdx (f : ℕ → CsvRow → Transaction) : ℕ → List CsvRow → List Transaction
  | _, [] => []
  | i, r :: l => f i r :: specMapIdx f (i + 1) l

theorem importRows_filterMap (main : String) (idGen : ℕ → String) (now : String) :
    ∀ (rows : List CsvRow) (i : ℕ),
      importRows main idGen now i rows =
        specMapIdx (fun i r => importTx main (idGen i) now r) i (rows.filter acceptRow) := by
  intro rows
  induction rows with
  | nil => intro i; rfl
  | cons r rest ih =>
    intro i
    by_cases h : acceptRow r = true
    · rw [importRows, if_pos h, List.filter_cons, if_pos h, specMapIdx, ih]
    · rw [importRows, if_neg h, List.filter_cons, if_neg h, ih]

/-- C9 (amended): a CSV row is accepted exactly when its Date, Name and
Price cells are all non-empty; each accepted row becomes a record whose
`priceInMain` is the value of the Price in Main cell when that cell parses
to a nonzero number, and otherwise (cell unparseable, or parsing to the
falsy 0) is the parsed Price cell; rejected rows produce no record. -/
theorem c9_import_shape (main : String) (idGen : ℕ → String) (now : String)
    (rows : List CsvRow) (ts : List Transaction) :
    importFromCSV main idGen now rows ts =
      ts ++ specMapIdx (fun i r =>
        { id := idGen i
          date := r.date
          name := r.name
          price := parseFloat r.price
          currency := if r.currency = "" then main else r.currency
          priceInMain :=
            match parseFloat r.priceInMain with
            | some q => if q = 0 then parseFloat r.price else some q
            | none => parseFloat r.price
          category := r.category
          paymentMethod := r.paymentMethod
          createdAt := now }) 0
        (rows.filter (fun r => r.date != "" && r.name != "" && r.price != "")) := by
  rw [importFromCSV, importRows_filterMap main idGen now rows 0]
  rfl

/-- A CSV row whose Price in Main cell parses to the falsy value 0. -/
def rowZeroPim : CsvRow :=
  { date := "2024-01-01", name := "Tea", price := "5", currency := "EUR"
    priceInMain := "0", mainCurrency := "", category := "", paymentMethod := "" }

theorem parseFloat_zeroChars : parseFloat "0" = some 0 := by
  have he : "0" = decString 0 0 := by decide
  rw [he, parseFloat_decString]
  norm_num

theorem parseFloat_fiveChars : parseFloat "5" = some 5 := by
  have he : "5" = decString 5 0 := by decide
  rw [he, parseFloat_decString]
  norm_num

/-- C9 counterexample: the Price in Main cell "0" is parseable as a number
(it parses to 0), so by the claim the imported record should carry
`priceInMain = 0`; but 0 is falsy in `parseFloat(...) || parseFloat(row.Price)`,
so the code falls back to the parsed Price cell and stores 5. -/
theorem c9_counterexample :
    parseFloat "0" = some 0 ∧
    ((importFromCSV "EUR" (fun _ => "f") "n" [rowZeroPim] []).map
      (fun t => t.priceInMain)) = [some 5] ∧
    some ((5 : ℚ)) ≠ some ((0 : ℚ)) := by
  refine ⟨parseFloat_zeroChars, ?_, ?_⟩
  · have hacc : acceptRow rowZeroPim = true := by decide
    rw [importFromCSV, List.nil_append, importRows, if_pos hacc, importRows]
    show [jsOr (parseFloat "0") (parseFloat "5")] = [some 5]
    rw [parseFloat_zeroChars, parseFloat_fiveChars]
    show [if (0 : ℚ) = 0 then some (5 : ℚ) else some 0] = [some 5]
    rw [if_pos rfl]
  · simp only [ne_eq, Option.some.injEq]
    norm_num

/-! ### Claim C1 -/

/-- C1 (amended): exporting and re-importing with the main currency
unchanged reproduces every record with its date, name, price, currency,
category and payment method intact and a fresh id and createdAt; the
`priceInMain` field is not reproduced exactly but comes back as its
two-decimal rounding (the export formats it with `toFixed(2)`), falling
back to the raw price when the stored value is NaN or when the rounded
value is the falsy 0; the hypotheses restrict to records whose date, name
and currency are non-empty (rows with empty Date or Name are dropped by
the import filter, and an empty Currency cell becomes the main currency)
and whose price is NaN or exactly representable in the decimal export
format, which holds for every value the application serializes. -/
theorem c1_roundTrip (main : String) (idGen : ℕ → String) (now : String)
    (ts : List Transaction)
    (h : ∀ t ∈ ts, t.date ≠ "" ∧ t.name ≠ "" ∧ t.currency ≠ "" ∧ jsNumOk t.price) :
    importFromCSV main idGen now (exportToCSV main ts) [] =
      roundTripList idGen now 0 ts := by
  rw [importFromCSV, List.nil_append]
  exact importRows_exportToCSV main idGen now ts h 0

/-- A record with a price of 5 EUR and a priceInMain of 5.5. -/
def txHalf : Transaction :=
  { id := "1", date := "2024-01-01", name := "Lunch", price := some 5, currency := "USD"
    priceInMain := some (11 / 2), category := "Food", paymentMethod := "Cash"
    createdAt := "c" }

theorem txHalf_wellFormed :
    ∀ t ∈ [txHalf], t.date ≠ "" ∧ t.name ≠ "" ∧ t.currency ≠ "" ∧ jsNumOk t.price := by
  intro t ht
  rw [List.mem_singleton.mp ht]
  refine ⟨by decide, by decide, by decide, ?_⟩
  intro q hq
  have hq5 : q = 5 := by
    have : some (5 : ℚ) = some q := hq
    exact (Option.some.injEq _ _ ▸ this).symm
  rw [hq5]
  refine finiteDec_ofInt (5 * 10 ^ 30) 5 ?_
  norm_num

/-- Witness for C1 on a concrete one-element store. -/
theorem c1_roundTrip_witness :
    importFromCSV "EUR" (fun _ => "w") "now" (exportToCSV "EUR" [txHalf]) [] =
      roundTripList (fun _ => "w") "now" 0 [txHalf] :=
  c1_roundTrip "EUR" (fun _ => "w") "now" [txHalf] txHalf_wellFormed

/-- A record whose priceInMain 1/8 = 0.125 does not survive two-decimal
rounding. -/
def txEighth : Transaction :=
  { id := "1", date := "2024-01-01", name := "Lunch", price := some 5, currency := "EUR"
    priceInMain := some (1 / 8), category := "", paymentMethod := "", createdAt := "c" }

theorem txEighth_wellFormed :
    ∀ t ∈ [txEighth], t.date ≠ "" ∧ t.name ≠ "" ∧ t.currency ≠ "" ∧ jsNumOk t.price := by
  intro t ht
  rw [List.mem_singleton.mp ht]
  refine ⟨by decide, by decide, by decide, ?_⟩
  intro q hq
  have hq5 : q = 5 := by
    have : some (5 : ℚ) = some q := hq
    exact (Option.some.injEq _ _ ▸ this).symm
  rw [hq5]
  refine finiteDec_ofInt (5 * 10 ^ 30) 5 ?_
  norm_num

/-- C1 counterexample: the record `txEighth` carries
`priceInMain = 1/8 = 0.125`; the export writes it as "0.13" via
`toFixed(2)`, so after re-importing the record carries 13/100, not 1/8:
the round trip does not reproduce `priceInMain`. -/
theorem c1_counterexample :
    ((importFromCSV "EUR" (fun _ => "f") "n" (exportToCSV "EUR" [txEighth]) []).map
      (fun t => t.priceInMain)) = [some (13 / 100)] ∧
    some ((13 : ℚ) / 100) ≠ some ((1 : ℚ) / 8) := by
  have hrt : importFromCSV "EUR" (fun _ => "f") "n" (exportToCSV "EUR" [txEighth]) [] =
      roundTripList (fun _ => "f") "n" 0 [txEighth] := by
    rw [importFromCSV, List.nil_append]
    exact importRows_exportToCSV "EUR" (fun _ => "f") "n" [txEighth] txEighth_wellFormed 0
  have hround : roundTo2 ((1 : ℚ) / 8) = 13 / 100 := by
    rw [roundTo2]
    norm_num [round_eq]
  constructor
  · rw [hrt]
    show [importedPriceInMain (some ((1 : ℚ) / 8)) (some 5)] = [some ((13 : ℚ) / 100)]
    show [if roundTo2 ((1 : ℚ) / 8) = 0 then some (5 : ℚ) else some (roundTo2 ((1 : ℚ) / 8))]
      = [some ((13 : ℚ) / 100)]
    rw [hround, if_neg (by norm_num)]
  · simp only [ne_eq, Option.some.injEq]
    norm_num
